import Mathlib

/-!
Shallow embedding of the simple-csv-tx-engine transaction engine
(src/model.rs and src/service.rs).

Amounts are rust_decimal Decimals in the source; all operations the claims
touch are exact additions, subtractions and order comparisons, so they are
embedded as rationals.  The Rust check amount.is_sign_negative() is embedded
as amount < 0.  Client and transaction ids are opaque identifiers compared
for equality only; they are embedded as naturals.  The hash maps of the
service (FxHashMap) are embedded as association lists with insert-or-replace
update; the claims only depend on lookup/insert semantics and the key set.
-/

namespace TxEngine

/-- TransactionType from model.rs. -/
inductive TransactionType where
  | Deposit
  | Withdrawal
  | Dispute
  | Resolve
  | Chargeback
deriving DecidableEq, Repr

/-- Transaction from model.rs: an input record.  The amount column is
optional in the input. -/
structure Transaction where
  type : TransactionType
  client_id : Nat
  transaction_id : Nat
  amount : Option ℚ
deriving DecidableEq, Repr

/-- TransactionError from model.rs. -/
inductive TransactionError where
  | InvalidAmount (amount : ℚ)
  | InsufficientFunds
  | AccountLocked
deriving DecidableEq, Repr

/-- ClientState from model.rs. -/
structure ClientState where
  client_id : Nat
  available : ℚ
  held : ℚ
  total : ℚ
  locked : Bool
deriving DecidableEq, Repr

namespace ClientState

/-- ClientState::new — a fresh state with no funds, unlocked. -/
def new (client_id : Nat) : ClientState :=
  { client_id := client_id, available := 0, held := 0, total := 0, locked := false }

/-- ClientState::deposit (model.rs line 89). -/
def deposit (s : ClientState) (amount : ℚ) : Except TransactionError ClientState :=
  if amount < 0 then
    .error (.InvalidAmount amount)
  else
    .ok { s with available := s.available + amount, total := s.total + amount }

/-- ClientState::withdraw (model.rs line 101). -/
def withdraw (s : ClientState) (amount : ℚ) : Except TransactionError ClientState :=
  if s.locked then
    .error .AccountLocked
  else if amount < 0 then
    .error (.InvalidAmount amount)
  else if s.available < amount then
    .error .InsufficientFunds
  else
    .ok { s with available := s.available - amount, total := s.total - amount }

/-- ClientState::dispute (model.rs line 124; called dispute_deposit at its
call site in service.rs). -/
def dispute (s : ClientState) (amount : ℚ) : Except TransactionError ClientState :=
  if amount < 0 then
    .error (.InvalidAmount amount)
  else
    .ok { s with available := s.available - amount, held := s.held + amount }

/-- ClientState::resolve (model.rs line 137). -/
def resolve (s : ClientState) (amount : ℚ) : Except TransactionError ClientState :=
  if amount < 0 then
    .error (.InvalidAmount amount)
  else if s.held < amount then
    .error .InsufficientFunds
  else
    .ok { s with available := s.available + amount, held := s.held - amount }

/-- ClientState::chargeback (model.rs line 154). -/
def chargeback (s : ClientState) (amount : ℚ) : Except TransactionError ClientState :=
  if amount < 0 then
    .error (.InvalidAmount amount)
  else if s.held < amount then
    .error .InsufficientFunds
  else
    .ok { s with held := s.held - amount, total := s.total - amount, locked := true }

end ClientState

/-- ProcessingError from service.rs.  The ImportError/ExportError payloads
are opaque anyhow errors in the source and carry no information the claims
use. -/
inductive ProcessingError where
  | ImportError
  | ExportError
  | MissingAmount (transaction_id : Nat)
  | CannotDispute (transaction_id : Nat)
  | CannotResolveOrChargeBack (transaction_id : Nat)
  | TransactionError (transaction_id : Nat) (error : TxEngine.TransactionError)
deriving DecidableEq, Repr

/-- TransactionState from service.rs: the per-record dispute lifecycle. -/
inductive TransactionState where
  | Applied
  | Disputed
  | ChargedBack
deriving DecidableEq, Repr

/-- TransactionState::can_dispute. -/
def TransactionState.can_dispute (s : TransactionState) : Bool :=
  s = TransactionState.Applied

/-- TransactionState::can_resolve_or_charge_back. -/
def TransactionState.can_resolve_or_charge_back (s : TransactionState) : Bool :=
  s = TransactionState.Disputed

/-- TransactionInfo from service.rs: a stored record of an applied
deposit/withdrawal. -/
structure TransactionInfo where
  amount : ℚ
  state : TransactionState
  type : TransactionType
deriving DecidableEq, Repr

/-- TransactionInfo::new — a fresh record starts in the Applied state. -/
def TransactionInfo.new (amount : ℚ) (type : TransactionType) : TransactionInfo :=
  { amount := amount, state := .Applied, type := type }

/-- TransactionInfo::can_dispute — only Applied deposits may be disputed. -/
def TransactionInfo.can_dispute (i : TransactionInfo) : Bool :=
  i.type = TransactionType.Deposit && i.state.can_dispute

/-- TransactionInfo::can_resolve_or_charge_back. -/
def TransactionInfo.can_resolve_or_charge_back (i : TransactionInfo) : Bool :=
  i.state.can_resolve_or_charge_back

/-- Lookup in an association-list embedding of FxHashMap keyed by naturals. -/
def mapLookup {α : Type} (m : List (Nat × α)) (k : Nat) : Option α :=
  match m with
  | [] => none
  | (k2, v) :: rest => if k2 = k then some v else mapLookup rest k

/-- Insert-or-replace in the association-list embedding of FxHashMap. -/
def mapInsert {α : Type} (m : List (Nat × α)) (k : Nat) (v : α) : List (Nat × α) :=
  match m with
  | [] => [(k, v)]
  | (k2, v2) :: rest =>
      if k2 = k then (k2, v) :: rest else (k2, v2) :: mapInsert rest k v

/-- ClientInfo from service.rs: a client state plus the stored
transaction records. -/
structure ClientInfo where
  state : ClientState
  transactions : List (Nat × TransactionInfo)
deriving DecidableEq, Repr

/-- ClientInfo::new — fresh client info with an empty history. -/
def ClientInfo.new (state : ClientState) : ClientInfo :=
  { state := state, transactions := [] }

/-- extract_amount from service.rs. -/
def extract_amount (t : Transaction) : Except ProcessingError ℚ :=
  match t.amount with
  | some a => .ok a
  | none => .error (.MissingAmount t.transaction_id)

/-- map_from_transaction_error from service.rs, fused with the call. -/
def map_from_transaction_error (transaction_id : Nat)
    (r : Except TransactionError ClientState) : Except ProcessingError ClientState :=
  match r with
  | .ok s => .ok s
  | .error e => .error (.TransactionError transaction_id e)

/-- TransactionProcessor::process_transaction (service.rs line 106):
dispatch one record against one client state and history.  The Rust
code mutates the ClientInfo in place and returns Result of unit; every
error path returns before any mutation, so the embedding returns the new
ClientInfo on success and just the error on failure (the caller keeps the
old ClientInfo in that case, as the Rust caller does). -/
def process_transaction (client : ClientInfo) (t : Transaction) :
    Except ProcessingError ClientInfo :=
  match t.type with
  | .Deposit =>
      match extract_amount t with
      | .error e => .error e
      | .ok amount =>
          match map_from_transaction_error t.transaction_id (client.state.deposit amount) with
          | .error e => .error e
          | .ok s =>
              .ok { state := s,
                    transactions :=
                      mapInsert client.transactions t.transaction_id
                        (TransactionInfo.new amount t.type) }
  | .Withdrawal =>
      match extract_amount t with
      | .error e => .error e
      | .ok amount =>
          match map_from_transaction_error t.transaction_id (client.state.withdraw amount) with
          | .error e => .error e
          | .ok s =>
              .ok { state := s,
                    transactions :=
                      mapInsert client.transactions t.transaction_id
                        (TransactionInfo.new amount t.type) }
  | .Dispute =>
      match mapLookup client.transactions t.transaction_id with
      | none => .ok client
      | some original =>
          if ! original.can_dispute then
            .error (.CannotDispute t.transaction_id)
          else
            match map_from_transaction_error t.transaction_id
                (client.state.dispute original.amount) with
            | .error e => .error e
            | .ok s =>
                .ok { state := s,
                      transactions :=
                        mapInsert client.transactions t.transaction_id
                          { original with state := .Disputed } }
  | .Resolve =>
      match mapLookup client.transactions t.transaction_id with
      | none => .ok client
      | some original =>
          if ! original.can_resolve_or_charge_back then
            .error (.CannotResolveOrChargeBack t.transaction_id)
          else
            match map_from_transaction_error t.transaction_id
                (client.state.resolve original.amount) with
            | .error e => .error e
            | .ok s =>
                .ok { state := s,
                      transactions :=
                        mapInsert client.transactions t.transaction_id
                          { original with state := .Applied } }
  | .Chargeback =>
      match mapLookup client.transactions t.transaction_id with
      | none => .ok client
      | some original =>
          if ! original.can_resolve_or_charge_back then
            .error (.CannotResolveOrChargeBack t.transaction_id)
          else
            match map_from_transaction_error t.transaction_id
                (client.state.chargeback original.amount) with
            | .error e => .error e
            | .ok s =>
                .ok { state := s,
                      transactions :=
                        mapInsert client.transactions t.transaction_id
                          { original with state := .ChargedBack } }

/-- ProcessingContext from service.rs: the ledger plus the run-scoped error
list. -/
structure ProcessingContext where
  clients : List (Nat × ClientInfo)
  transaction_errors : List ProcessingError
deriving DecidableEq, Repr

/-- ProcessingContext::default — empty ledger, no errors. -/
def ProcessingContext.init : ProcessingContext :=
  { clients := [], transaction_errors := [] }

/-- The ledger entry used for one record: the existing entry, or a fresh
zero-balance one (the or_insert_with in service.rs line 74). -/
def getOrNewClient (ctx : ProcessingContext) (cid : Nat) : ClientInfo :=
  (mapLookup ctx.clients cid).getD (ClientInfo.new (ClientState.new cid))

/-- One iteration of the import_and_process_transactions loop body on an
already-imported record: create the ledger entry if needed, dispatch, and
either store the updated client or keep the old one and append the error
to the run-scoped list. -/
def stepTransaction (ctx : ProcessingContext) (t : Transaction) : ProcessingContext :=
  let client := getOrNewClient ctx t.client_id
  match process_transaction client t with
  | .ok client2 =>
      { ctx with clients := mapInsert ctx.clients t.client_id client2 }
  | .error e =>
      { clients := mapInsert ctx.clients t.client_id client,
        transaction_errors := ctx.transaction_errors ++ [e] }

/-- The processing loop over a list of already-imported records. -/
def processList (l : List Transaction) (ctx : ProcessingContext) : ProcessingContext :=
  match l with
  | [] => ctx
  | t :: rest => processList rest (stepTransaction ctx t)

/-- import_and_process_transactions (service.rs line 69) over the items the
importer yields: each item is either a successfully parsed record or
an import failure (opaque payload).  The first failing item aborts the whole
run with a fatal ImportError. -/
def import_and_process_transactions (items : List (Except Unit Transaction))
    (ctx : ProcessingContext) : Except ProcessingError ProcessingContext :=
  match items with
  | [] => .ok ctx
  | .error _ :: _ => .error .ImportError
  | .ok t :: rest => import_and_process_transactions rest (stepTransaction ctx t)

/-- export_client_states (service.rs line 59): emit the state of every client,
in the iteration order of the ledger. -/
def export_client_states (ctx : ProcessingContext) : List ClientState :=
  ctx.clients.map (fun p => p.2.state)

/-- TransactionProcessor::process_transactions (service.rs line 54):
first import and process everything, then export; an import failure
aborts before anything is exported. -/
def process_transactions (items : List (Except Unit Transaction)) :
    Except ProcessingError (List ClientState) :=
  match import_and_process_transactions items ProcessingContext.init with
  | .error e => .error e
  | .ok ctx => .ok (export_client_states ctx)

/-- The per-record dispatch outcome of one loop iteration, before the
context is updated. -/
def stepResult (ctx : ProcessingContext) (t : Transaction) :
    Except ProcessingError ClientInfo :=
  process_transaction (getOrNewClient ctx t.client_id) t

/-- The trace of per-record dispatch outcomes of a run, in input order. -/
def processResults (l : List Transaction) (ctx : ProcessingContext) :
    List (Transaction × Except ProcessingError ClientInfo) :=
  match l with
  | [] => []
  | t :: rest => (t, stepResult ctx t) :: processResults rest (stepTransaction ctx t)

/-- One of the five account operations of ClientState, with its amount. -/
inductive ClientOp where
  | deposit (amount : ℚ)
  | withdraw (amount : ℚ)
  | dispute (amount : ℚ)
  | resolve (amount : ℚ)
  | chargeback (amount : ℚ)
deriving DecidableEq, Repr

/-- Apply one account operation to a client state. -/
def applyClientOp (op : ClientOp) (s : ClientState) : Except TransactionError ClientState :=
  match op with
  | .deposit a => s.deposit a
  | .withdraw a => s.withdraw a
  | .dispute a => s.dispute a
  | .resolve a => s.resolve a
  | .chargeback a => s.chargeback a

/-- The client states reachable from the zero-balance state by a sequence of
successful account operations. -/
inductive ReachableState : ClientState → Prop where
  | init (cid : Nat) : ReachableState (ClientState.new cid)
  | step {s s2 : ClientState} (op : ClientOp) :
      ReachableState s → applyClientOp op s = .ok s2 → ReachableState s2

/-- Whether a record type belongs to the dispute family
(Dispute/Resolve/Chargeback), the types processed by reference to a stored
transaction. -/
def isDisputeFamily (ty : TransactionType) : Bool :=
  match ty with
  | .Dispute => true
  | .Resolve => true
  | .Chargeback => true
  | _ => false

/-- Two input records that agree everywhere except possibly on the amount
field of a dispute-family record. -/
def sameUpToDisputeAmounts (t1 t2 : Transaction) : Prop :=
  t1.type = t2.type ∧ t1.client_id = t2.client_id ∧
    t1.transaction_id = t2.transaction_id ∧
    (isDisputeFamily t1.type = false → t1.amount = t2.amount)

/-- The internal invariant of one ledger entry: balances add up, held funds
are non-negative, and every stored record carries a non-negative amount. -/
def ClientInfoInv (c : ClientInfo) : Prop :=
  c.state.total = c.state.available + c.state.held ∧
    0 ≤ c.state.held ∧
    ∀ p ∈ c.transactions, 0 ≤ (p.2 : TransactionInfo).amount

/-- The internal invariant of the whole ledger. -/
def LedgerInv (ctx : ProcessingContext) : Prop :=
  ∀ p ∈ ctx.clients, ClientInfoInv p.2

/-- Scenario A from the test suite: one client, deposit 2, withdraw 1, then
dispute/resolve/dispute/chargeback of the deposit. -/
def scenarioA : List Transaction :=
  [ { type := .Deposit, client_id := 1, transaction_id := 1, amount := some 2 },
    { type := .Withdrawal, client_id := 1, transaction_id := 2, amount := some 1 },
    { type := .Dispute, client_id := 1, transaction_id := 1, amount := none },
    { type := .Resolve, client_id := 1, transaction_id := 1, amount := none },
    { type := .Dispute, client_id := 1, transaction_id := 1, amount := none },
    { type := .Chargeback, client_id := 1, transaction_id := 1, amount := none } ]

/-- Scenario A with the amount column of every dispute-family record altered
(filled in with arbitrary values); deposits and withdrawals unchanged. -/
def scenarioAAltered : List Transaction :=
  [ { type := .Deposit, client_id := 1, transaction_id := 1, amount := some 2 },
    { type := .Withdrawal, client_id := 1, transaction_id := 2, amount := some 1 },
    { type := .Dispute, client_id := 1, transaction_id := 1, amount := some 99 },
    { type := .Resolve, client_id := 1, transaction_id := 1, amount := some 5 },
    { type := .Dispute, client_id := 1, transaction_id := 1, amount := some 0 },
    { type := .Chargeback, client_id := 1, transaction_id := 1, amount := some 7 } ]

/-- A locked account with zero balances, used as a concrete example. -/
def lockedAccount : ClientState :=
  { client_id := 1, available := 0, held := 0, total := 0, locked := true }

/-- A charged-back deposit record, used as a concrete example. -/
def chargedBackRecord : TransactionInfo :=
  { amount := 2, state := .ChargedBack, type := .Deposit }

/-- A deposit record with no amount column, used as a concrete example of a
recoverable per-transaction failure. -/
def missingAmountDeposit : Transaction :=
  { type := .Deposit, client_id := 1, transaction_id := 9, amount := none }

/-- A dispute referencing a transaction id never seen, used as a concrete
example of a silently ignored record. -/
def orphanDispute : Transaction :=
  { type := .Dispute, client_id := 1, transaction_id := 9, amount := none }

/-! Helper lemmas: exact characterizations of the five account operations. -/

theorem ClientState.deposit_of_neg {s : ClientState} {a : ℚ} (h : a < 0) :
    s.deposit a = .error (.InvalidAmount a) := by
  simp [ClientState.deposit, h]

theorem ClientState.deposit_of_nonneg {s : ClientState} {a : ℚ} (h : 0 ≤ a) :
    s.deposit a = .ok { s with available := s.available + a, total := s.total + a } := by
  simp [ClientState.deposit, not_lt.mpr h]

theorem ClientState.deposit_ok_inv {s s2 : ClientState} {a : ℚ}
    (h : s.deposit a = .ok s2) :
    0 ≤ a ∧ s2 = { s with available := s.available + a, total := s.total + a } := by
  unfold ClientState.deposit at h
  split at h
  · exact absurd h (by simp)
  · next hneg =>
    simp only [Except.ok.injEq] at h
    exact ⟨not_lt.mp hneg, h.symm⟩

theorem ClientState.withdraw_of_locked {s : ClientState} {a : ℚ} (h : s.locked = true) :
    s.withdraw a = .error .AccountLocked := by
  simp [ClientState.withdraw, h]

theorem ClientState.withdraw_ok_inv {s s2 : ClientState} {a : ℚ}
    (h : s.withdraw a = .ok s2) :
    s.locked = false ∧ 0 ≤ a ∧ a ≤ s.available ∧
      s2 = { s with available := s.available - a, total := s.total - a } := by
  unfold ClientState.withdraw at h
  split at h
  · exact absurd h (by simp)
  · split at h
    · exact absurd h (by simp)
    · split at h
      · exact absurd h (by simp)
      · next hlk hneg hav =>
        simp only [Except.ok.injEq] at h
        exact ⟨by simpa using hlk, not_lt.mp hneg, not_lt.mp hav, h.symm⟩

theorem ClientState.dispute_of_nonneg {s : ClientState} {a : ℚ} (h : 0 ≤ a) :
    s.dispute a = .ok { s with available := s.available - a, held := s.held + a } := by
  simp [ClientState.dispute, not_lt.mpr h]

theorem ClientState.dispute_ok_inv {s s2 : ClientState} {a : ℚ}
    (h : s.dispute a = .ok s2) :
    0 ≤ a ∧ s2 = { s with available := s.available - a, held := s.held + a } := by
  unfold ClientState.dispute at h
  split at h
  · exact absurd h (by simp)
  · next hneg =>
    simp only [Except.ok.injEq] at h
    exact ⟨not_lt.mp hneg, h.symm⟩

theorem ClientState.resolve_ok_inv {s s2 : ClientState} {a : ℚ}
    (h : s.resolve a = .ok s2) :
    0 ≤ a ∧ a ≤ s.held ∧
      s2 = { s with available := s.available + a, held := s.held - a } := by
  unfold ClientState.resolve at h
  split at h
  · exact absurd h (by simp)
  · split at h
    · exact absurd h (by simp)
    · next hneg hheld =>
      simp only [Except.ok.injEq] at h
      exact ⟨not_lt.mp hneg, not_lt.mp hheld, h.symm⟩

theorem ClientState.chargeback_ok_inv {s s2 : ClientState} {a : ℚ}
    (h : s.chargeback a = .ok s2) :
    0 ≤ a ∧ a ≤ s.held ∧
      s2 = { s with held := s.held - a, total := s.total - a, locked := true } := by
  unfold ClientState.chargeback at h
  split at h
  · exact absurd h (by simp)
  · split at h
    · exact absurd h (by simp)
    · next hneg hheld =>
      simp only [Except.ok.injEq] at h
      exact ⟨not_lt.mp hneg, not_lt.mp hheld, h.symm⟩

theorem TransactionInfo.can_dispute_iff (i : TransactionInfo) :
    i.can_dispute = true ↔ i.type = .Deposit ∧ i.state = .Applied := by
  simp [TransactionInfo.can_dispute, TransactionState.can_dispute]

theorem TransactionInfo.can_resolve_iff (i : TransactionInfo) :
    i.can_resolve_or_charge_back = true ↔ i.state = .Disputed := by
  simp [TransactionInfo.can_resolve_or_charge_back, TransactionState.can_resolve_or_charge_back]

/-! Helper lemmas: the association-list embedding of the hash maps. -/

theorem mapLookup_mapInsert_self {α : Type} (m : List (Nat × α)) (k : Nat) (v : α) :
    mapLookup (mapInsert m k v) k = some v := by
  induction m with
  | nil => simp [mapInsert, mapLookup]
  | cons p rest ih =>
    by_cases hk : p.1 = k
    · simp [mapInsert, mapLookup, hk]
    · simp [mapInsert, mapLookup, hk, ih]

theorem mapLookup_mapInsert_ne {α : Type} (m : List (Nat × α)) {k k2 : Nat} (v : α)
    (h : k ≠ k2) : mapLookup (mapInsert m k v) k2 = mapLookup m k2 := by
  induction m with
  | nil => simp [mapInsert, mapLookup, h]
  | cons p rest ih =>
    by_cases hk : p.1 = k
    · simp [mapInsert, mapLookup, hk, h]
    · simp only [mapInsert, hk, if_false, mapLookup]
      by_cases hk2 : p.1 = k2 <;> simp [hk2, ih]

theorem mem_of_mapLookup {α : Type} {m : List (Nat × α)} {k : Nat} {v : α}
    (h : mapLookup m k = some v) : (k, v) ∈ m := by
  induction m with
  | nil => simp [mapLookup] at h
  | cons p rest ih =>
    rcases p with ⟨k2, v2⟩
    by_cases hk : k2 = k
    · simp only [mapLookup, hk, if_true, Option.some.injEq] at h
      subst hk
      subst h
      exact List.mem_cons_self _ _
    · simp only [mapLookup, hk, if_false] at h
      exact List.mem_cons_of_mem _ (ih h)

theorem mem_mapInsert {α : Type} {m : List (Nat × α)} {k : Nat} {v : α}
    {p : Nat × α} (h : p ∈ mapInsert m k v) : p ∈ m ∨ p = (k, v) := by
  induction m with
  | nil => simpa [mapInsert] using h
  | cons q rest ih =>
    rcases q with ⟨k2, v2⟩
    by_cases hk : k2 = k
    · simp only [mapInsert, hk, if_true] at h
      rcases List.mem_cons.mp h with h1 | h1
      · exact Or.inr h1
      · exact Or.inl (List.mem_cons_of_mem _ h1)
    · simp only [mapInsert, hk, if_false] at h
      rcases List.mem_cons.mp h with h1 | h1
      · exact Or.inl (by rw [h1]; exact List.mem_cons_self _ _)
      · rcases ih h1 with h2 | h2
        · exact Or.inl (List.mem_cons_of_mem _ h2)
        · exact Or.inr h2

theorem mem_fst_mapInsert {α : Type} (m : List (Nat × α)) (k : Nat) (v : α) (a : Nat) :
    a ∈ (mapInsert m k v).map Prod.fst ↔ a ∈ m.map Prod.fst ∨ a = k := by
  induction m with
  | nil => simp [mapInsert]
  | cons q rest ih =>
    rcases q with ⟨k2, v2⟩
    by_cases hk : k2 = k
    · subst hk
      by_cases ha : a = k2 <;> simp [mapInsert, ha]
    · simp only [mapInsert, hk, if_false, List.map_cons, List.mem_cons, ih]
      tauto

theorem nodup_fst_mapInsert {α : Type} {m : List (Nat × α)} (k : Nat) (v : α)
    (h : (m.map Prod.fst).Nodup) : ((mapInsert m k v).map Prod.fst).Nodup := by
  induction m with
  | nil => simp [mapInsert]
  | cons q rest ih =>
    rcases q with ⟨k2, v2⟩
    simp only [List.map_cons, List.nodup_cons] at h
    by_cases hk : k2 = k
    · simp only [mapInsert, hk, if_true, List.map_cons, List.nodup_cons]
      exact ⟨by simpa [hk] using h.1, h.2⟩
    · simp only [mapInsert, hk, if_false, List.map_cons, List.nodup_cons]
      refine ⟨?_, ih h.2⟩
      rw [mem_fst_mapInsert]
      rintro (h1 | h1)
      · exact h.1 h1
      · exact hk h1

theorem mapLookup_eq_none_of_not_mem {α : Type} {m : List (Nat × α)} {k : Nat}
    (h : k ∉ m.map Prod.fst) : mapLookup m k = none := by
  induction m with
  | nil => simp [mapLookup]
  | cons q rest ih =>
    rcases q with ⟨k2, v2⟩
    simp only [List.map_cons, List.mem_cons] at h
    push_neg at h
    simp only [mapLookup, Ne.symm h.1, if_false]
    exact ih h.2

/-! Helper lemmas: inversion and computation rules for process_transaction. -/

theorem process_transaction_ok_shape {c c2 : ClientInfo} {t : Transaction}
    (h : process_transaction c t = .ok c2) :
    (c2 = c ∧ isDisputeFamily t.type = true ∧
      mapLookup c.transactions t.transaction_id = none) ∨
    (∃ a, t.type = .Deposit ∧ t.amount = some a ∧
      c.state.deposit a = .ok c2.state ∧
      c2.transactions =
        mapInsert c.transactions t.transaction_id (TransactionInfo.new a t.type)) ∨
    (∃ a, t.type = .Withdrawal ∧ t.amount = some a ∧
      c.state.withdraw a = .ok c2.state ∧
      c2.transactions =
        mapInsert c.transactions t.transaction_id (TransactionInfo.new a t.type)) ∨
    (∃ original, t.type = .Dispute ∧
      mapLookup c.transactions t.transaction_id = some original ∧
      original.type = .Deposit ∧ original.state = .Applied ∧
      c.state.dispute original.amount = .ok c2.state ∧
      c2.transactions = mapInsert c.transactions t.transaction_id
        { original with state := .Disputed }) ∨
    (∃ original, t.type = .Resolve ∧
      mapLookup c.transactions t.transaction_id = some original ∧
      original.state = .Disputed ∧
      c.state.resolve original.amount = .ok c2.state ∧
      c2.transactions = mapInsert c.transactions t.transaction_id
        { original with state := .Applied }) ∨
    (∃ original, t.type = .Chargeback ∧
      mapLookup c.transactions t.transaction_id = some original ∧
      original.state = .Disputed ∧
      c.state.chargeback original.amount = .ok c2.state ∧
      c2.transactions = mapInsert c.transactions t.transaction_id
        { original with state := .ChargedBack }) := by
  rcases t with ⟨ty, cid, tid, amt⟩
  cases ty with
  | Deposit =>
    cases amt with
    | none => simp [process_transaction, extract_amount] at h
    | some a =>
      cases hd : c.state.deposit a with
      | error e =>
        simp [process_transaction, extract_amount, map_from_transaction_error, hd] at h
      | ok s =>
        simp only [process_transaction, extract_amount, map_from_transaction_error, hd,
          Except.ok.injEq] at h
        subst h
        exact Or.inr (Or.inl ⟨a, rfl, rfl, by simpa using hd, rfl⟩)
  | Withdrawal =>
    cases amt with
    | none => simp [process_transaction, extract_amount] at h
    | some a =>
      cases hd : c.state.withdraw a with
      | error e =>
        simp [process_transaction, extract_amount, map_from_transaction_error, hd] at h
      | ok s =>
        simp only [process_transaction, extract_amount, map_from_transaction_error, hd,
          Except.ok.injEq] at h
        subst h
        exact Or.inr (Or.inr (Or.inl ⟨a, rfl, rfl, by simpa using hd, rfl⟩))
  | Dispute =>
    cases hl : mapLookup c.transactions tid with
    | none =>
      simp only [process_transaction, hl, Except.ok.injEq] at h
      exact Or.inl ⟨h.symm, rfl, rfl⟩
    | some original =>
      cases hcd : original.can_dispute with
      | false => simp [process_transaction, hl, hcd] at h
      | true =>
        cases hd : c.state.dispute original.amount with
        | error e =>
          simp [process_transaction, hl, hcd, map_from_transaction_error, hd] at h
        | ok s =>
          simp only [process_transaction, hl, hcd, Bool.not_true, Bool.false_eq_true,
            if_false, map_from_transaction_error, hd, Except.ok.injEq] at h
          subst h
          rcases (TransactionInfo.can_dispute_iff original).mp hcd with ⟨h1, h2⟩
          exact Or.inr (Or.inr (Or.inr (Or.inl
            ⟨original, rfl, rfl, h1, h2, by simpa using hd, rfl⟩)))
  | Resolve =>
    cases hl : mapLookup c.transactions tid with
    | none =>
      simp only [process_transaction, hl, Except.ok.injEq] at h
      exact Or.inl ⟨h.symm, rfl, rfl⟩
    | some original =>
      cases hcd : original.can_resolve_or_charge_back with
      | false => simp [process_transaction, hl, hcd] at h
      | true =>
        cases hd : c.state.resolve original.amount with
        | error e =>
          simp [process_transaction, hl, hcd, map_from_transaction_error, hd] at h
        | ok s =>
          simp only [process_transaction, hl, hcd, Bool.not_true, Bool.false_eq_true,
            if_false, map_from_transaction_error, hd, Except.ok.injEq] at h
          subst h
          exact Or.inr (Or.inr (Or.inr (Or.inr (Or.inl
            ⟨original, rfl, rfl, (TransactionInfo.can_resolve_iff original).mp hcd,
              by simpa using hd, rfl⟩))))
  | Chargeback =>
    cases hl : mapLookup c.transactions tid with
    | none =>
      simp only [process_transaction, hl, Except.ok.injEq] at h
      exact Or.inl ⟨h.symm, rfl, rfl⟩
    | some original =>
      cases hcd : original.can_resolve_or_charge_back with
      | false => simp [process_transaction, hl, hcd] at h
      | true =>
        cases hd : c.state.chargeback original.amount with
        | error e =>
          simp [process_transaction, hl, hcd, map_from_transaction_error, hd] at h
        | ok s =>
          simp only [process_transaction, hl, hcd, Bool.not_true, Bool.false_eq_true,
            if_false, map_from_transaction_error, hd, Except.ok.injEq] at h
          subst h
          exact Or.inr (Or.inr (Or.inr (Or.inr (Or.inr
            ⟨original, rfl, rfl, (TransactionInfo.can_resolve_iff original).mp hcd,
              by simpa using hd, rfl⟩))))

theorem process_family_no_op {c : ClientInfo} {t : Transaction}
    (hf : isDisputeFamily t.type = true)
    (hl : mapLookup c.transactions t.transaction_id = none) :
    process_transaction c t = .ok c := by
  rcases t with ⟨ty, cid, tid, amt⟩
  cases ty <;> simp_all [isDisputeFamily, process_transaction]

theorem process_dispute_rejected {c : ClientInfo} {t : Transaction}
    {original : TransactionInfo} (hty : t.type = .Dispute)
    (hl : mapLookup c.transactions t.transaction_id = some original)
    (hcd : original.can_dispute = false) :
    process_transaction c t = .error (.CannotDispute t.transaction_id) := by
  rcases t with ⟨ty, cid, tid, amt⟩
  cases hty
  simp [process_transaction, hl, hcd]

theorem process_resolve_rejected {c : ClientInfo} {t : Transaction}
    {original : TransactionInfo} (hty : t.type = .Resolve)
    (hl : mapLookup c.transactions t.transaction_id = some original)
    (hcd : original.can_resolve_or_charge_back = false) :
    process_transaction c t = .error (.CannotResolveOrChargeBack t.transaction_id) := by
  rcases t with ⟨ty, cid, tid, amt⟩
  cases hty
  simp [process_transaction, hl, hcd]

theorem process_chargeback_rejected {c : ClientInfo} {t : Transaction}
    {original : TransactionInfo} (hty : t.type = .Chargeback)
    (hl : mapLookup c.transactions t.transaction_id = some original)
    (hcd : original.can_resolve_or_charge_back = false) :
    process_transaction c t = .error (.CannotResolveOrChargeBack t.transaction_id) := by
  rcases t with ⟨ty, cid, tid, amt⟩
  cases hty
  simp [process_transaction, hl, hcd]

/-! Helper lemmas: preservation of the ledger invariant. -/

theorem ClientInfoInv_new (cid : Nat) :
    ClientInfoInv (ClientInfo.new (ClientState.new cid)) := by
  refine ⟨by simp [ClientInfo.new, ClientState.new], by simp [ClientInfo.new, ClientState.new], ?_⟩
  simp [ClientInfo.new]

theorem process_transaction_client_inv {c c2 : ClientInfo} {t : Transaction}
    (h : process_transaction c t = .ok c2) (hc : ClientInfoInv c) : ClientInfoInv c2 := by
  obtain ⟨hbal, hheld, hrec⟩ := hc
  rcases process_transaction_ok_shape h with
    ⟨heq, -, -⟩ | ⟨a, -, -, hop, htr⟩ | ⟨a, -, -, hop, htr⟩ |
    ⟨orig, -, hl, -, -, hop, htr⟩ | ⟨orig, -, hl, -, hop, htr⟩ | ⟨orig, -, hl, -, hop, htr⟩
  · rw [heq]
    exact ⟨hbal, hheld, hrec⟩
  · obtain ⟨ha, hs⟩ := ClientState.deposit_ok_inv hop
    refine ⟨by rw [hs]; simpa using by linarith, by rw [hs]; simpa using hheld, ?_⟩
    intro p hp
    rw [htr] at hp
    rcases mem_mapInsert hp with h1 | h1
    · exact hrec p h1
    · rw [h1]
      simpa [TransactionInfo.new] using ha
  · obtain ⟨hlk, ha, hav, hs⟩ := ClientState.withdraw_ok_inv hop
    refine ⟨by rw [hs]; simpa using by linarith, by rw [hs]; simpa using hheld, ?_⟩
    intro p hp
    rw [htr] at hp
    rcases mem_mapInsert hp with h1 | h1
    · exact hrec p h1
    · rw [h1]
      simpa [TransactionInfo.new] using ha
  · obtain ⟨ha, hs⟩ := ClientState.dispute_ok_inv hop
    have horig : (0:ℚ) ≤ orig.amount := hrec _ (mem_of_mapLookup hl)
    refine ⟨by rw [hs]; simpa using by linarith, by rw [hs]; simpa using by linarith, ?_⟩
    intro p hp
    rw [htr] at hp
    rcases mem_mapInsert hp with h1 | h1
    · exact hrec p h1
    · rw [h1]
      simpa using horig
  · obtain ⟨ha, hhd, hs⟩ := ClientState.resolve_ok_inv hop
    have horig : (0:ℚ) ≤ orig.amount := hrec _ (mem_of_mapLookup hl)
    refine ⟨by rw [hs]; simpa using by linarith, by rw [hs]; simpa using by linarith, ?_⟩
    intro p hp
    rw [htr] at hp
    rcases mem_mapInsert hp with h1 | h1
    · exact hrec p h1
    · rw [h1]
      simpa using horig
  · obtain ⟨ha, hhd, hs⟩ := ClientState.chargeback_ok_inv hop
    have horig : (0:ℚ) ≤ orig.amount := hrec _ (mem_of_mapLookup hl)
    refine ⟨by rw [hs]; simpa using by linarith, by rw [hs]; simpa using by linarith, ?_⟩
    intro p hp
    rw [htr] at hp
    rcases mem_mapInsert hp with h1 | h1
    · exact hrec p h1
    · rw [h1]
      simpa using horig

theorem getOrNewClient_inv {ctx : ProcessingContext} (cid : Nat) (h : LedgerInv ctx) :
    ClientInfoInv (getOrNewClient ctx cid) := by
  unfold getOrNewClient
  cases hl : mapLookup ctx.clients cid with
  | none => simpa using ClientInfoInv_new cid
  | some info => simpa using h _ (mem_of_mapLookup hl)

theorem stepTransaction_inv {ctx : ProcessingContext} {t : Transaction}
    (h : LedgerInv ctx) : LedgerInv (stepTransaction ctx t) := by
  intro p hp
  unfold stepTransaction at hp
  cases hpr : process_transaction (getOrNewClient ctx t.client_id) t with
  | ok c2 =>
    simp only [hpr] at hp
    rcases mem_mapInsert hp with h1 | h1
    · exact h _ h1
    · rw [h1]
      exact process_transaction_client_inv hpr (getOrNewClient_inv t.client_id h)
  | error e =>
    simp only [hpr] at hp
    rcases mem_mapInsert hp with h1 | h1
    · exact h _ h1
    · rw [h1]
      exact getOrNewClient_inv t.client_id h

theorem processList_inv {l : List Transaction} :
    ∀ {ctx : ProcessingContext}, LedgerInv ctx → LedgerInv (processList l ctx) := by
  induction l with
  | nil => intro ctx h; exact h
  | cons t rest ih => intro ctx h; exact ih (stepTransaction_inv h)

theorem LedgerInv_init : LedgerInv ProcessingContext.init := by
  intro p hp
  simp [ProcessingContext.init] at hp

/-! Helper lemmas: balance, lock and client id facts about single operations. -/

theorem applyClientOp_balance {op : ClientOp} {s s2 : ClientState}
    (h : applyClientOp op s = .ok s2) (hb : s.total = s.available + s.held) :
    s2.total = s2.available + s2.held := by
  cases op with
  | deposit a =>
    obtain ⟨-, hs⟩ := ClientState.deposit_ok_inv h
    rw [hs]
    simpa using by linarith
  | withdraw a =>
    obtain ⟨-, -, -, hs⟩ := ClientState.withdraw_ok_inv h
    rw [hs]
    simpa using by linarith
  | dispute a =>
    obtain ⟨-, hs⟩ := ClientState.dispute_ok_inv h
    rw [hs]
    simpa using by linarith
  | resolve a =>
    obtain ⟨-, -, hs⟩ := ClientState.resolve_ok_inv h
    rw [hs]
    simpa using by linarith
  | chargeback a =>
    obtain ⟨-, -, hs⟩ := ClientState.chargeback_ok_inv h
    rw [hs]
    simpa using by linarith

theorem applyClientOp_locked {op : ClientOp} {s s2 : ClientState}
    (h : applyClientOp op s = .ok s2) (hl : s.locked = true) : s2.locked = true := by
  cases op with
  | deposit a =>
    obtain ⟨-, hs⟩ := ClientState.deposit_ok_inv h
    rw [hs]
    simpa using hl
  | withdraw a =>
    obtain ⟨hlk, -, -, -⟩ := ClientState.withdraw_ok_inv h
    rw [hl] at hlk
    exact absurd hlk (by simp)
  | dispute a =>
    obtain ⟨-, hs⟩ := ClientState.dispute_ok_inv h
    rw [hs]
    simpa using hl
  | resolve a =>
    obtain ⟨-, -, hs⟩ := ClientState.resolve_ok_inv h
    rw [hs]
    simpa using hl
  | chargeback a =>
    obtain ⟨-, -, hs⟩ := ClientState.chargeback_ok_inv h
    rw [hs]

theorem process_transaction_locked {c c2 : ClientInfo} {t : Transaction}
    (h : process_transaction c t = .ok c2) (hl : c.state.locked = true) :
    c2.state.locked = true := by
  rcases process_transaction_ok_shape h with
    ⟨heq, -, -⟩ | ⟨a, -, -, hop, -⟩ | ⟨a, -, -, hop, -⟩ |
    ⟨orig, -, -, -, -, hop, -⟩ | ⟨orig, -, -, -, hop, -⟩ | ⟨orig, -, -, -, hop, -⟩
  · rw [heq]
    exact hl
  · exact @applyClientOp_locked (.deposit a) _ _ hop hl
  · exact @applyClientOp_locked (.withdraw a) _ _ hop hl
  · exact @applyClientOp_locked (.dispute orig.amount) _ _ hop hl
  · exact @applyClientOp_locked (.resolve orig.amount) _ _ hop hl
  · exact @applyClientOp_locked (.chargeback orig.amount) _ _ hop hl

theorem process_transaction_client_id {c c2 : ClientInfo} {t : Transaction}
    (h : process_transaction c t = .ok c2) :
    c2.state.client_id = c.state.client_id := by
  rcases process_transaction_ok_shape h with
    ⟨heq, -, -⟩ | ⟨a, -, -, hop, -⟩ | ⟨a, -, -, hop, -⟩ |
    ⟨orig, -, -, -, -, hop, -⟩ | ⟨orig, -, -, -, hop, -⟩ | ⟨orig, -, -, -, hop, -⟩
  · rw [heq]
  · obtain ⟨-, hs⟩ := ClientState.deposit_ok_inv hop
    rw [hs]
  · obtain ⟨-, -, -, hs⟩ := ClientState.withdraw_ok_inv hop
    rw [hs]
  · obtain ⟨-, hs⟩ := ClientState.dispute_ok_inv hop
    rw [hs]
  · obtain ⟨-, -, hs⟩ := ClientState.resolve_ok_inv hop
    rw [hs]
  · obtain ⟨-, -, hs⟩ := ClientState.chargeback_ok_inv hop
    rw [hs]

/-! Helper lemmas: the processing loop. -/

theorem stepTransaction_clients_of_ok {ctx : ProcessingContext} {t : Transaction}
    {c2 : ClientInfo} (h : stepResult ctx t = .ok c2) :
    (stepTransaction ctx t).clients = mapInsert ctx.clients t.client_id c2 ∧
      (stepTransaction ctx t).transaction_errors = ctx.transaction_errors := by
  unfold stepResult at h
  unfold stepTransaction
  simp [h]

theorem stepTransaction_clients_of_error {ctx : ProcessingContext} {t : Transaction}
    {e : ProcessingError} (h : stepResult ctx t = .error e) :
    (stepTransaction ctx t).clients =
        mapInsert ctx.clients t.client_id (getOrNewClient ctx t.client_id) ∧
      (stepTransaction ctx t).transaction_errors = ctx.transaction_errors ++ [e] := by
  unfold stepResult at h
  unfold stepTransaction
  simp [h]

theorem stepTransaction_clients_shape (ctx : ProcessingContext) (t : Transaction) :
    ∃ info, (stepTransaction ctx t).clients = mapInsert ctx.clients t.client_id info := by
  cases h : stepResult ctx t with
  | ok c2 => exact ⟨c2, (stepTransaction_clients_of_ok h).1⟩
  | error e => exact ⟨_, (stepTransaction_clients_of_error h).1⟩

theorem stepTransaction_errors (ctx : ProcessingContext) (t : Transaction) :
    (stepTransaction ctx t).transaction_errors =
      ctx.transaction_errors ++
        (match stepResult ctx t with
          | .ok _ => []
          | .error e => [e]) := by
  cases h : stepResult ctx t with
  | ok c2 => simpa using (stepTransaction_clients_of_ok h).2
  | error e => exact (stepTransaction_clients_of_error h).2

theorem processList_append (l1 l2 : List Transaction) :
    ∀ ctx : ProcessingContext,
      processList (l1 ++ l2) ctx = processList l2 (processList l1 ctx) := by
  induction l1 with
  | nil => intro ctx; rfl
  | cons t rest ih =>
    intro ctx
    simp only [List.cons_append, processList]
    exact ih (stepTransaction ctx t)

theorem import_map_ok (l : List Transaction) :
    ∀ ctx : ProcessingContext,
      import_and_process_transactions (l.map .ok) ctx = .ok (processList l ctx) := by
  induction l with
  | nil => intro ctx; rfl
  | cons t rest ih =>
    intro ctx
    simp only [List.map_cons, import_and_process_transactions, processList]
    exact ih (stepTransaction ctx t)

theorem import_has_error {items : List (Except Unit Transaction)}
    (h : Except.error () ∈ items) :
    ∀ ctx : ProcessingContext,
      import_and_process_transactions items ctx = .error .ImportError := by
  induction items with
  | nil => simp at h
  | cons x rest ih =>
    intro ctx
    cases x with
    | error u => rfl
    | ok t =>
      have h2 : Except.error () ∈ rest := by
        rcases List.mem_cons.mp h with h1 | h1
        · exact absurd h1 (by simp)
        · exact h1
      simp only [import_and_process_transactions]
      exact ih h2 (stepTransaction ctx t)

theorem processList_mem_keys (l : List Transaction) :
    ∀ (ctx : ProcessingContext) (a : Nat),
      a ∈ (processList l ctx).clients.map Prod.fst ↔
        a ∈ ctx.clients.map Prod.fst ∨ a ∈ l.map Transaction.client_id := by
  induction l with
  | nil => intro ctx a; simp [processList]
  | cons t rest ih =>
    intro ctx a
    obtain ⟨info, hstep⟩ := stepTransaction_clients_shape ctx t
    simp only [processList, List.map_cons, List.mem_cons]
    rw [ih, hstep, mem_fst_mapInsert]
    tauto

theorem processList_keys_nodup (l : List Transaction) :
    ∀ ctx : ProcessingContext, (ctx.clients.map Prod.fst).Nodup →
      ((processList l ctx).clients.map Prod.fst).Nodup := by
  induction l with
  | nil => intro ctx h; exact h
  | cons t rest ih =>
    intro ctx h
    obtain ⟨info, hstep⟩ := stepTransaction_clients_shape ctx t
    refine ih (stepTransaction ctx t) ?_
    rw [hstep]
    exact nodup_fst_mapInsert _ _ h

theorem processList_ids (l : List Transaction) :
    ∀ ctx : ProcessingContext, (∀ p ∈ ctx.clients, (p.2 : ClientInfo).state.client_id = p.1) →
      ∀ p ∈ (processList l ctx).clients, (p.2 : ClientInfo).state.client_id = p.1 := by
  induction l with
  | nil => intro ctx h; exact h
  | cons t rest ih =>
    intro ctx h
    refine ih (stepTransaction ctx t) ?_
    intro p hp
    unfold stepTransaction at hp
    cases hpr : process_transaction (getOrNewClient ctx t.client_id) t with
    | ok c2 =>
      simp only [hpr] at hp
      rcases mem_mapInsert hp with h1 | h1
      · exact h _ h1
      · have hbase : (getOrNewClient ctx t.client_id).state.client_id = t.client_id := by
          unfold getOrNewClient
          cases hl : mapLookup ctx.clients t.client_id with
          | none => simp [ClientInfo.new, ClientState.new]
          | some info => simpa using h _ (mem_of_mapLookup hl)
        rw [h1]
        simpa [process_transaction_client_id hpr] using hbase
    | error e =>
      simp only [hpr] at hp
      rcases mem_mapInsert hp with h1 | h1
      · exact h _ h1
      · have hbase : (getOrNewClient ctx t.client_id).state.client_id = t.client_id := by
          unfold getOrNewClient
          cases hl : mapLookup ctx.clients t.client_id with
          | none => simp [ClientInfo.new, ClientState.new]
          | some info => simpa using h _ (mem_of_mapLookup hl)
        rw [h1]
        exact hbase

theorem getOrNewClient_of_none {ctx : ProcessingContext} {cid : Nat}
    (h : mapLookup ctx.clients cid = none) :
    getOrNewClient ctx cid = ClientInfo.new (ClientState.new cid) := by
  unfold getOrNewClient
  rw [h]
  rfl

theorem processList_failed_client (cid : Nat) (l : List Transaction) :
    ∀ ctx : ProcessingContext,
      (∀ p ∈ processResults l ctx, (p.1 : Transaction).client_id = cid →
        ∃ e, p.2 = .error e) →
      (mapLookup ctx.clients cid = none ∨
        mapLookup ctx.clients cid = some (ClientInfo.new (ClientState.new cid))) →
      (cid ∈ l.map Transaction.client_id ∨
        mapLookup ctx.clients cid = some (ClientInfo.new (ClientState.new cid))) →
      mapLookup (processList l ctx).clients cid =
        some (ClientInfo.new (ClientState.new cid)) := by
  induction l with
  | nil =>
    intro ctx hres hcur hmem
    rcases hmem with hmem | hmem
    · simp at hmem
    · exact hmem
  | cons t rest ih =>
    intro ctx hres hcur hmem
    simp only [processList]
    by_cases hcid : t.client_id = cid
    · subst hcid
      have hfresh : getOrNewClient ctx t.client_id =
          ClientInfo.new (ClientState.new t.client_id) := by
        rcases hcur with hcur | hcur
        · exact getOrNewClient_of_none hcur
        · unfold getOrNewClient
          rw [hcur]
          rfl
      obtain ⟨e, he⟩ :=
        hres (t, stepResult ctx t) (by simp [processResults]) rfl
      have hcl := (stepTransaction_clients_of_error he).1
      have hlk : mapLookup (stepTransaction ctx t).clients t.client_id =
          some (ClientInfo.new (ClientState.new t.client_id)) := by
        rw [hcl, hfresh]
        exact mapLookup_mapInsert_self _ _ _
      refine ih (stepTransaction ctx t) ?_ (Or.inr hlk) (Or.inr hlk)
      intro p hp hpcid
      exact hres p (by simp [processResults, hp]) hpcid
    · obtain ⟨info, hstep⟩ := stepTransaction_clients_shape ctx t
      have hlk : mapLookup (stepTransaction ctx t).clients cid = mapLookup ctx.clients cid := by
        rw [hstep]
        exact mapLookup_mapInsert_ne _ _ hcid
      refine ih (stepTransaction ctx t) ?_ (by rw [hlk]; exact hcur) ?_
      · intro p hp hpcid
        exact hres p (by simp [processResults, hp]) hpcid
      · rcases hmem with hmem | hmem
        · simp only [List.map_cons, List.mem_cons] at hmem
          rcases hmem with h1 | h1
          · exact absurd h1.symm hcid
          · exact Or.inl h1
        · exact Or.inr (by rw [hlk]; exact hmem)

/-! Helper lemmas: dispute-family records are processed without reading
their amount field. -/

theorem process_transaction_amount_blind {c : ClientInfo} {t1 t2 : Transaction}
    (h : sameUpToDisputeAmounts t1 t2) :
    process_transaction c t1 = process_transaction c t2 := by
  obtain ⟨hty, hcid, htid, hamt⟩ := h
  rcases t1 with ⟨ty1, cid1, tid1, amt1⟩
  rcases t2 with ⟨ty2, cid2, tid2, amt2⟩
  dsimp only at hty hcid htid hamt
  subst hty
  subst hcid
  subst htid
  cases ty1 with
  | Deposit =>
    have : amt1 = amt2 := hamt (by rfl)
    subst this
    rfl
  | Withdrawal =>
    have : amt1 = amt2 := hamt (by rfl)
    subst this
    rfl
  | Dispute => rfl
  | Resolve => rfl
  | Chargeback => rfl

theorem stepTransaction_amount_blind {ctx : ProcessingContext} {t1 t2 : Transaction}
    (h : sameUpToDisputeAmounts t1 t2) :
    stepTransaction ctx t1 = stepTransaction ctx t2 := by
  have hcid : t1.client_id = t2.client_id := h.2.1
  have hpt : ∀ c : ClientInfo, process_transaction c t1 = process_transaction c t2 :=
    fun c => process_transaction_amount_blind h
  simp only [stepTransaction, hcid, hpt]

theorem processList_amount_blind {l1 l2 : List Transaction}
    (h : List.Forall₂ sameUpToDisputeAmounts l1 l2) :
    ∀ ctx : ProcessingContext, processList l1 ctx = processList l2 ctx := by
  induction h with
  | nil => intro ctx; rfl
  | cons hrel hrest ih =>
    intro ctx
    simp only [processList]
    rw [stepTransaction_amount_blind hrel]
    exact ih _

theorem import_inv {items : List (Except Unit Transaction)} :
    ∀ {ctx ctx2 : ProcessingContext},
      import_and_process_transactions items ctx = .ok ctx2 →
      LedgerInv ctx → LedgerInv ctx2 := by
  induction items with
  | nil =>
    intro ctx ctx2 h hinv
    simp only [import_and_process_transactions, Except.ok.injEq] at h
    rw [← h]
    exact hinv
  | cons x rest ih =>
    intro ctx ctx2 h hinv
    cases x with
    | error u => simp [import_and_process_transactions] at h
    | ok t =>
      simp only [import_and_process_transactions] at h
      exact ih h (stepTransaction_inv hinv)

theorem scenarioA_export :
    export_client_states (processList scenarioA ProcessingContext.init) =
      [{ client_id := 1, available := -1, held := 0, total := -1, locked := true }] := by
  norm_num [scenarioA, processList, stepTransaction, stepResult, getOrNewClient,
    process_transaction, extract_amount, map_from_transaction_error,
    ClientState.deposit, ClientState.withdraw, ClientState.dispute,
    ClientState.resolve, ClientState.chargeback, ClientState.new,
    ClientInfo.new, mapLookup, mapInsert, TransactionInfo.new,
    TransactionInfo.can_dispute, TransactionInfo.can_resolve_or_charge_back,
    TransactionState.can_dispute, TransactionState.can_resolve_or_charge_back,
    ProcessingContext.init, export_client_states]

theorem process_family_outcomes {c : ClientInfo} {t : Transaction}
    (hf : isDisputeFamily t.type = true)
    (hrec : ∀ r ∈ c.transactions, 0 ≤ (r.2 : TransactionInfo).amount) :
    (∃ c2, process_transaction c t = .ok c2) ∨
    process_transaction c t = .error (.CannotDispute t.transaction_id) ∨
    process_transaction c t = .error (.CannotResolveOrChargeBack t.transaction_id) ∨
    process_transaction c t = .error (.TransactionError t.transaction_id .InsufficientFunds) := by
  rcases t with ⟨ty, cid, tid, amt⟩
  cases ty with
  | Deposit => simp [isDisputeFamily] at hf
  | Withdrawal => simp [isDisputeFamily] at hf
  | Dispute =>
    cases hl : mapLookup c.transactions tid with
    | none => exact Or.inl ⟨c, process_family_no_op rfl hl⟩
    | some orig =>
      cases hcd : orig.can_dispute with
      | false => exact Or.inr (Or.inl (process_dispute_rejected rfl hl hcd))
      | true =>
        have ha : (0:ℚ) ≤ orig.amount := hrec _ (mem_of_mapLookup hl)
        refine Or.inl ⟨⟨{ c.state with
          available := c.state.available - orig.amount,
          held := c.state.held + orig.amount },
          mapInsert c.transactions tid { orig with state := .Disputed }⟩, ?_⟩
        simp only [process_transaction, hl, hcd, Bool.not_true, Bool.false_eq_true, if_false,
          ClientState.dispute_of_nonneg ha, map_from_transaction_error]
  | Resolve =>
    cases hl : mapLookup c.transactions tid with
    | none => exact Or.inl ⟨c, process_family_no_op rfl hl⟩
    | some orig =>
      cases hcd : orig.can_resolve_or_charge_back with
      | false => exact Or.inr (Or.inr (Or.inl (process_resolve_rejected rfl hl hcd)))
      | true =>
        have ha : (0:ℚ) ≤ orig.amount := hrec _ (mem_of_mapLookup hl)
        by_cases hin : c.state.held < orig.amount
        · refine Or.inr (Or.inr (Or.inr ?_))
          simp only [process_transaction, hl, hcd, Bool.not_true, Bool.false_eq_true, if_false,
            ClientState.resolve, not_lt.mpr ha, if_neg (not_lt.mpr ha), if_pos hin,
            map_from_transaction_error]
        · refine Or.inl ⟨⟨{ c.state with
            available := c.state.available + orig.amount,
            held := c.state.held - orig.amount },
            mapInsert c.transactions tid { orig with state := .Applied }⟩, ?_⟩
          simp only [process_transaction, hl, hcd, Bool.not_true, Bool.false_eq_true, if_false,
            ClientState.resolve, if_neg (not_lt.mpr ha), if_neg hin,
            map_from_transaction_error]
  | Chargeback =>
    cases hl : mapLookup c.transactions tid with
    | none => exact Or.inl ⟨c, process_family_no_op rfl hl⟩
    | some orig =>
      cases hcd : orig.can_resolve_or_charge_back with
      | false => exact Or.inr (Or.inr (Or.inl (process_chargeback_rejected rfl hl hcd)))
      | true =>
        have ha : (0:ℚ) ≤ orig.amount := hrec _ (mem_of_mapLookup hl)
        by_cases hin : c.state.held < orig.amount
        · refine Or.inr (Or.inr (Or.inr ?_))
          simp only [process_transaction, hl, hcd, Bool.not_true, Bool.false_eq_true, if_false,
            ClientState.chargeback, if_neg (not_lt.mpr ha), if_pos hin,
            map_from_transaction_error]
        · refine Or.inl ⟨⟨{ c.state with
            held := c.state.held - orig.amount,
            total := c.state.total - orig.amount, locked := true },
            mapInsert c.transactions tid { orig with state := .ChargedBack }⟩, ?_⟩
          simp only [process_transaction, hl, hcd, Bool.not_true, Bool.false_eq_true, if_false,
            ClientState.chargeback, if_neg (not_lt.mpr ha), if_neg hin,
            map_from_transaction_error]

/-! The claims. -/

/-- C1: starting from the zero-balance state, total = available + held holds
after every successful account operation (for any sequence of such
operations), and therefore for every client snapshot emitted by a completed
processor run. -/
theorem c1_total_eq_available_plus_held :
    (∀ s : ClientState, ReachableState s → s.total = s.available + s.held) ∧
    (∀ (items : List (Except Unit Transaction)) (ctx : ProcessingContext),
      import_and_process_transactions items ProcessingContext.init = .ok ctx →
      ∀ s ∈ export_client_states ctx, s.total = s.available + s.held) := by
  constructor
  · intro s hs
    induction hs with
    | init cid => simp [ClientState.new]
    | step op hs hok ih => exact applyClientOp_balance hok ih
  · intro items ctx h s hs
    have hinv : LedgerInv ctx := import_inv h LedgerInv_init
    simp only [export_client_states, List.mem_map] at hs
    obtain ⟨p, hp, hps⟩ := hs
    rw [← hps]
    exact (hinv p hp).1

/-- C1 witness: the invariant instantiated at a concrete reachable state and
at the snapshots of the concrete Scenario A run. -/
theorem c1_total_eq_available_plus_held_witness :
    ((ClientState.new 7).total = (ClientState.new 7).available + (ClientState.new 7).held) ∧
    ({ client_id := 1, available := -1, held := 0, total := -1, locked := true :
        ClientState }.total =
      { client_id := 1, available := -1, held := 0, total := -1, locked := true :
        ClientState }.available +
      { client_id := 1, available := -1, held := 0, total := -1, locked := true :
        ClientState }.held) :=
  ⟨c1_total_eq_available_plus_held.1 (ClientState.new 7) (ReachableState.init 7),
   c1_total_eq_available_plus_held.2 (scenarioA.map .ok) _
     (import_map_ok scenarioA ProcessingContext.init) _
     (by rw [scenarioA_export]; exact List.mem_singleton.mpr rfl)⟩

/-- C3 counterexample: withdrawing a negative amount from a locked account
yields AccountLocked, not InvalidAmount — the lock guard runs before the
amount guard, so a negative amount does not always produce InvalidAmount. -/
theorem c3_counterexample :
    lockedAccount.withdraw (-3) = .error .AccountLocked ∧
    lockedAccount.withdraw (-3) ≠ .error (.InvalidAmount (-3)) := by
  constructor
  · rfl
  · intro h
    rw [ClientState.withdraw_of_locked rfl] at h
    simp at h

/-- C3 (amended): each of the five operations either succeeds with the exact
balance update or returns a typed error and (the state being returned only
on success) leaves the account unchanged; InvalidAmount is returned on a
negative amount except that withdraw on a locked account returns
AccountLocked first; InsufficientFunds exactly when available < amount for
withdraw, or held < amount for resolve/chargeback. -/
theorem c3_all_or_nothing (s : ClientState) (a : ℚ) :
    (a < 0 → s.deposit a = .error (.InvalidAmount a)) ∧
    (0 ≤ a → s.deposit a =
      .ok { s with available := s.available + a, total := s.total + a }) ∧
    (s.locked = true → s.withdraw a = .error .AccountLocked) ∧
    (s.locked = false → a < 0 → s.withdraw a = .error (.InvalidAmount a)) ∧
    (s.locked = false → 0 ≤ a → s.available < a →
      s.withdraw a = .error .InsufficientFunds) ∧
    (s.locked = false → 0 ≤ a → a ≤ s.available →
      s.withdraw a = .ok { s with available := s.available - a, total := s.total - a }) ∧
    (a < 0 → s.dispute a = .error (.InvalidAmount a)) ∧
    (0 ≤ a → s.dispute a =
      .ok { s with available := s.available - a, held := s.held + a }) ∧
    (a < 0 → s.resolve a = .error (.InvalidAmount a)) ∧
    (0 ≤ a → s.held < a → s.resolve a = .error .InsufficientFunds) ∧
    (0 ≤ a → a ≤ s.held →
      s.resolve a = .ok { s with available := s.available + a, held := s.held - a }) ∧
    (a < 0 → s.chargeback a = .error (.InvalidAmount a)) ∧
    (0 ≤ a → s.held < a → s.chargeback a = .error .InsufficientFunds) ∧
    (0 ≤ a → a ≤ s.held →
      s.chargeback a =
        .ok { s with held := s.held - a, total := s.total - a, locked := true }) := by
  refine ⟨?_, ?_, ?_, ?_, ?_, ?_, ?_, ?_, ?_, ?_, ?_, ?_, ?_, ?_⟩
  · intro h
    simp [ClientState.deposit, h]
  · intro h
    exact ClientState.deposit_of_nonneg h
  · intro h
    exact ClientState.withdraw_of_locked h
  · intro h1 h2
    simp [ClientState.withdraw, h1, h2]
  · intro h1 h2 h3
    simp [ClientState.withdraw, h1, not_lt.mpr h2, h3]
  · intro h1 h2 h3
    simp [ClientState.withdraw, h1, not_lt.mpr h2, not_lt.mpr h3]
  · intro h
    simp [ClientState.dispute, h]
  · intro h
    exact ClientState.dispute_of_nonneg h
  · intro h
    simp [ClientState.resolve, h]
  · intro h1 h2
    simp [ClientState.resolve, not_lt.mpr h1, h2]
  · intro h1 h2
    simp [ClientState.resolve, not_lt.mpr h1, not_lt.mpr h2]
  · intro h
    simp [ClientState.chargeback, h]
  · intro h1 h2
    simp [ClientState.chargeback, not_lt.mpr h1, h2]
  · intro h1 h2
    simp [ClientState.chargeback, not_lt.mpr h1, not_lt.mpr h2]

/-- C3 witness: the amended characterization instantiated on a fresh account
with amount 2 (successful deposit) and on a locked account (withdraw refused). -/
theorem c3_all_or_nothing_witness :
    ((0:ℚ) ≤ 2) ∧
    ((ClientState.new 1).deposit 2 =
      .ok { ClientState.new 1 with
        available := (ClientState.new 1).available + 2,
        total := (ClientState.new 1).total + 2 }) ∧
    (lockedAccount.locked = true) ∧
    (lockedAccount.withdraw 2 = .error .AccountLocked) :=
  ⟨by decide,
   (c3_all_or_nothing (ClientState.new 1) 2).2.1 (by decide),
   rfl,
   (c3_all_or_nothing lockedAccount 2).2.2.1 rfl⟩

/-- C7: on any account with non-negative held funds, dispute of a
non-negative amount followed immediately by resolve of the same amount
succeeds and restores the account exactly. -/
theorem c7_dispute_resolve_roundtrip (s : ClientState) (a : ℚ)
    (hheld : 0 ≤ s.held) (ha : 0 ≤ a) :
    (s.dispute a).bind (fun s1 => s1.resolve a) = .ok s := by
  rw [ClientState.dispute_of_nonneg ha]
  show ClientState.resolve _ a = .ok s
  unfold ClientState.resolve
  rw [if_neg (not_lt.mpr ha), if_neg (by simp only []; push_neg; linarith)]
  simp only [Except.ok.injEq]
  rcases s with ⟨cid, av, hd, tot, lk⟩
  simp only [ClientState.mk.injEq, eq_self_iff_true, true_and, and_true]
  constructor <;> ring

/-- C7 witness: the round trip on a fresh account with amount 2. -/
theorem c7_dispute_resolve_roundtrip_witness :
    ((0:ℚ) ≤ (ClientState.new 3).held) ∧ ((0:ℚ) ≤ 2) ∧
    ((ClientState.new 3).dispute 2).bind (fun s1 => s1.resolve 2) =
      .ok (ClientState.new 3) :=
  ⟨by decide, by decide,
   c7_dispute_resolve_roundtrip (ClientState.new 3) 2 (by decide) (by decide)⟩

/-- C8: Scenario A — deposit 2, withdraw 1, dispute, resolve, dispute,
chargeback on the deposit — ends with client 1 at available -1, held 0,
total -1, locked. -/
theorem c8_scenario_a :
    export_client_states (processList scenarioA ProcessingContext.init) =
      [{ client_id := 1, available := -1, held := 0, total := -1, locked := true }] :=
  scenarioA_export

/-- C2: with a stored record present, Dispute succeeds only on an Applied
deposit and otherwise fails with CannotDispute; Resolve/Chargeback succeed
only on a Disputed record and otherwise fail with CannotResolveOrChargeBack;
success transitions the lifecycle to Disputed / Applied (re-disputable) /
ChargedBack respectively, and once ChargedBack no dispute-family record on
that transaction id can succeed. -/
theorem c2_dispute_lifecycle (c : ClientInfo) (t : Transaction)
    (original : TransactionInfo)
    (h : mapLookup c.transactions t.transaction_id = some original) :
    (t.type = .Dispute →
      (∀ c2, process_transaction c t = .ok c2 →
        original.type = .Deposit ∧ original.state = .Applied ∧
        mapLookup c2.transactions t.transaction_id =
          some { original with state := .Disputed }) ∧
      (¬ (original.type = .Deposit ∧ original.state = .Applied) →
        process_transaction c t = .error (.CannotDispute t.transaction_id))) ∧
    (t.type = .Resolve →
      (∀ c2, process_transaction c t = .ok c2 →
        original.state = .Disputed ∧
        mapLookup c2.transactions t.transaction_id =
          some { original with state := .Applied }) ∧
      (original.state ≠ .Disputed →
        process_transaction c t = .error (.CannotResolveOrChargeBack t.transaction_id))) ∧
    (t.type = .Chargeback →
      (∀ c2, process_transaction c t = .ok c2 →
        original.state = .Disputed ∧
        mapLookup c2.transactions t.transaction_id =
          some { original with state := .ChargedBack }) ∧
      (original.state ≠ .Disputed →
        process_transaction c t = .error (.CannotResolveOrChargeBack t.transaction_id))) ∧
    (original.state = .ChargedBack → isDisputeFamily t.type = true →
      ∀ c2, process_transaction c t ≠ .ok c2) := by
  refine ⟨?_, ?_, ?_, ?_⟩
  · intro hty
    constructor
    · intro c2 hok
      rcases process_transaction_ok_shape hok with
        ⟨-, -, hl⟩ | ⟨a, hty2, -, -, -⟩ | ⟨a, hty2, -, -, -⟩ |
        ⟨orig2, -, hl2, h1, h2, -, htr⟩ | ⟨orig2, hty2, -, -, -, -⟩ |
        ⟨orig2, hty2, -, -, -, -⟩
      · rw [hl] at h
        exact absurd h (by simp)
      · rw [hty] at hty2
        exact absurd hty2 (by simp)
      · rw [hty] at hty2
        exact absurd hty2 (by simp)
      · have horig : original = orig2 := Option.some.inj (h.symm.trans hl2)
        subst horig
        refine ⟨h1, h2, ?_⟩
        rw [htr]
        exact mapLookup_mapInsert_self _ _ _
      · rw [hty] at hty2
        exact absurd hty2 (by simp)
      · rw [hty] at hty2
        exact absurd hty2 (by simp)
    · intro hn
      have hcd : original.can_dispute = false := by
        cases hb : original.can_dispute with
        | false => rfl
        | true => exact absurd ((TransactionInfo.can_dispute_iff original).mp hb) hn
      exact process_dispute_rejected hty h hcd
  · intro hty
    constructor
    · intro c2 hok
      rcases process_transaction_ok_shape hok with
        ⟨-, -, hl⟩ | ⟨a, hty2, -, -, -⟩ | ⟨a, hty2, -, -, -⟩ |
        ⟨orig2, hty2, -, -, -, -, -⟩ | ⟨orig2, -, hl2, h1, -, htr⟩ |
        ⟨orig2, hty2, -, -, -, -⟩
      · rw [hl] at h
        exact absurd h (by simp)
      · rw [hty] at hty2
        exact absurd hty2 (by simp)
      · rw [hty] at hty2
        exact absurd hty2 (by simp)
      · rw [hty] at hty2
        exact absurd hty2 (by simp)
      · have horig : original = orig2 := Option.some.inj (h.symm.trans hl2)
        subst horig
        refine ⟨h1, ?_⟩
        rw [htr]
        exact mapLookup_mapInsert_self _ _ _
      · rw [hty] at hty2
        exact absurd hty2 (by simp)
    · intro hn
      have hcd : original.can_resolve_or_charge_back = false := by
        cases hb : original.can_resolve_or_charge_back with
        | false => rfl
        | true => exact absurd ((TransactionInfo.can_resolve_iff original).mp hb) hn
      exact process_resolve_rejected hty h hcd
  · intro hty
    constructor
    · intro c2 hok
      rcases process_transaction_ok_shape hok with
        ⟨-, -, hl⟩ | ⟨a, hty2, -, -, -⟩ | ⟨a, hty2, -, -, -⟩ |
        ⟨orig2, hty2, -, -, -, -, -⟩ | ⟨orig2, hty2, -, -, -, -⟩ |
        ⟨orig2, -, hl2, h1, -, htr⟩
      · rw [hl] at h
        exact absurd h (by simp)
      · rw [hty] at hty2
        exact absurd hty2 (by simp)
      · rw [hty] at hty2
        exact absurd hty2 (by simp)
      · rw [hty] at hty2
        exact absurd hty2 (by simp)
      · rw [hty] at hty2
        exact absurd hty2 (by simp)
      · have horig : original = orig2 := Option.some.inj (h.symm.trans hl2)
        subst horig
        refine ⟨h1, ?_⟩
        rw [htr]
        exact mapLookup_mapInsert_self _ _ _
    · intro hn
      have hcd : original.can_resolve_or_charge_back = false := by
        cases hb : original.can_resolve_or_charge_back with
        | false => rfl
        | true => exact absurd ((TransactionInfo.can_resolve_iff original).mp hb) hn
      exact process_chargeback_rejected hty h hcd
  · intro hcb hf c2 hok
    rcases process_transaction_ok_shape hok with
      ⟨-, -, hl⟩ | ⟨a, hty2, -, -, -⟩ | ⟨a, hty2, -, -, -⟩ |
      ⟨orig2, -, hl2, -, h2, -, -⟩ | ⟨orig2, -, hl2, h2, -, -⟩ |
      ⟨orig2, -, hl2, h2, -, -⟩
    · rw [hl] at h
      exact absurd h (by simp)
    · rw [hty2] at hf
      simp [isDisputeFamily] at hf
    · rw [hty2] at hf
      simp [isDisputeFamily] at hf
    · have horig : original = orig2 := Option.some.inj (h.symm.trans hl2)
      subst horig
      rw [hcb] at h2
      exact absurd h2 (by simp)
    · have horig : original = orig2 := Option.some.inj (h.symm.trans hl2)
      subst horig
      rw [hcb] at h2
      exact absurd h2 (by simp)
    · have horig : original = orig2 := Option.some.inj (h.symm.trans hl2)
      subst horig
      rw [hcb] at h2
      exact absurd h2 (by simp)

/-- C2 witness: a charged-back deposit record can no longer be resolved. -/
theorem c2_dispute_lifecycle_witness :
    (mapLookup [(5, chargedBackRecord)] 5 = some chargedBackRecord) ∧
    process_transaction ⟨ClientState.new 1, [(5, chargedBackRecord)]⟩
        { type := .Resolve, client_id := 1, transaction_id := 5, amount := none } =
      .error (.CannotResolveOrChargeBack 5) :=
  ⟨rfl,
   ((c2_dispute_lifecycle ⟨ClientState.new 1, [(5, chargedBackRecord)]⟩
      { type := .Resolve, client_id := 1, transaction_id := 5, amount := none }
      chargedBackRecord rfl).2.1 rfl).2 (by decide)⟩

/-- C4: a dispute-family record whose transaction id is absent from the
client history is a silent no-op — the client state and history are
returned unchanged and nothing is appended to the run error list — while a
failing record appends its error to the run error list. -/
theorem c4_unknown_reference_ignored (ctx : ProcessingContext) (t t2 : Transaction)
    (e : ProcessingError) (hf : isDisputeFamily t.type = true)
    (hl : mapLookup (getOrNewClient ctx t.client_id).transactions t.transaction_id = none)
    (he : stepResult ctx t2 = .error e) :
    stepResult ctx t = .ok (getOrNewClient ctx t.client_id) ∧
    (stepTransaction ctx t).transaction_errors = ctx.transaction_errors ∧
    mapLookup (stepTransaction ctx t).clients t.client_id =
      some (getOrNewClient ctx t.client_id) ∧
    (stepTransaction ctx t2).transaction_errors = ctx.transaction_errors ++ [e] := by
  have hok : stepResult ctx t = .ok (getOrNewClient ctx t.client_id) :=
    process_family_no_op hf hl
  refine ⟨hok, (stepTransaction_clients_of_ok hok).2, ?_,
    (stepTransaction_clients_of_error he).2⟩
  rw [(stepTransaction_clients_of_ok hok).1]
  exact mapLookup_mapInsert_self _ _ _

/-- C4 witness: a dispute on a never-seen transaction id is silently
ignored, while a deposit with a missing amount is collected as an error. -/
theorem c4_unknown_reference_ignored_witness :
    stepResult ProcessingContext.init orphanDispute =
      .ok (getOrNewClient ProcessingContext.init orphanDispute.client_id) ∧
    (stepTransaction ProcessingContext.init orphanDispute).transaction_errors =
      ProcessingContext.init.transaction_errors ∧
    mapLookup (stepTransaction ProcessingContext.init orphanDispute).clients
        orphanDispute.client_id =
      some (getOrNewClient ProcessingContext.init orphanDispute.client_id) ∧
    (stepTransaction ProcessingContext.init missingAmountDeposit).transaction_errors =
      ProcessingContext.init.transaction_errors ++ [.MissingAmount 9] :=
  c4_unknown_reference_ignored ProcessingContext.init orphanDispute
    missingAmountDeposit (.MissingAmount 9) rfl rfl rfl

/-- C5: a locked account never becomes unlocked again — under any single
account operation, any processed record, and any processing step on the
ledger — and while locked every withdrawal fails with AccountLocked while
deposits of non-negative amounts still succeed and add to available and
total. -/
theorem c5_lock_is_permanent :
    (∀ (op : ClientOp) (s s2 : ClientState), s.locked = true →
      applyClientOp op s = .ok s2 → s2.locked = true) ∧
    (∀ (c c2 : ClientInfo) (t : Transaction), c.state.locked = true →
      process_transaction c t = .ok c2 → c2.state.locked = true) ∧
    (∀ (ctx : ProcessingContext) (t : Transaction) (cid : Nat) (info info2 : ClientInfo),
      mapLookup ctx.clients cid = some info → info.state.locked = true →
      mapLookup (stepTransaction ctx t).clients cid = some info2 →
      info2.state.locked = true) ∧
    (∀ (s : ClientState) (a : ℚ), s.locked = true →
      s.withdraw a = .error .AccountLocked) ∧
    (∀ (s : ClientState) (a : ℚ), s.locked = true → 0 ≤ a →
      s.deposit a = .ok { s with available := s.available + a, total := s.total + a }) := by
  refine ⟨?_, ?_, ?_, ?_, ?_⟩
  · intro op s s2 hl hok
    exact applyClientOp_locked hok hl
  · intro c c2 t hl hok
    exact process_transaction_locked hok hl
  · intro ctx t cid info info2 hlk hlocked hlk2
    by_cases hcid : t.client_id = cid
    · subst hcid
      have hg : getOrNewClient ctx t.client_id = info := by
        unfold getOrNewClient
        rw [hlk]
        rfl
      cases hres : stepResult ctx t with
      | ok c2 =>
        rw [(stepTransaction_clients_of_ok hres).1, mapLookup_mapInsert_self] at hlk2
        have h2 : c2 = info2 := Option.some.inj hlk2
        subst h2
        have hpr : process_transaction (getOrNewClient ctx t.client_id) t = .ok c2 := hres
        exact process_transaction_locked hpr (by rw [hg]; exact hlocked)
      | error e =>
        rw [(stepTransaction_clients_of_error hres).1, mapLookup_mapInsert_self] at hlk2
        have h2 : getOrNewClient ctx t.client_id = info2 := Option.some.inj hlk2
        rw [← h2, hg]
        exact hlocked
    · obtain ⟨info3, hstep⟩ := stepTransaction_clients_shape ctx t
      rw [hstep, mapLookup_mapInsert_ne _ _ hcid] at hlk2
      have h2 : info = info2 := Option.some.inj (hlk.symm.trans hlk2)
      rw [← h2]
      exact hlocked
  · intro s a hl
    exact ClientState.withdraw_of_locked hl
  · intro s a hl ha
    exact ClientState.deposit_of_nonneg ha

/-- C5 witness: on a concrete locked account, withdrawal is refused and a
deposit of 1 still succeeds. -/
theorem c5_lock_is_permanent_witness :
    lockedAccount.withdraw 1 = .error .AccountLocked ∧
    lockedAccount.deposit 1 =
      .ok { lockedAccount with
        available := lockedAccount.available + 1,
        total := lockedAccount.total + 1 } :=
  ⟨c5_lock_is_permanent.2.2.2.1 lockedAccount 1 rfl,
   c5_lock_is_permanent.2.2.2.2 lockedAccount 1 rfl (by decide)⟩

/-- C6: an import failure anywhere in the item stream makes the whole run
abort with a fatal ImportError and no snapshot list is produced; with
no import failure the run completes and exports, per-record errors are appended
to the run list in input order, exactly one snapshot is produced per client
id seen in the input (snapshot client ids match the ledger keys), and a
client all of whose records failed keeps the fresh zero-balance unlocked
entry created before validation. -/
theorem c6_fatal_import_nonfatal_records (items : List (Except Unit Transaction))
    (l : List Transaction) (t : Transaction) (ctx : ProcessingContext) (cid : Nat) :
    (Except.error () ∈ items → process_transactions items = .error .ImportError) ∧
    (process_transactions (l.map .ok) =
      .ok (export_client_states (processList l ProcessingContext.init))) ∧
    ((processList (l ++ [t]) ctx).transaction_errors =
      (processList l ctx).transaction_errors ++
        (match stepResult (processList l ctx) t with
          | .ok _ => []
          | .error e => [e])) ∧
    ((processList l ProcessingContext.init).clients.map Prod.fst).Nodup ∧
    (cid ∈ (processList l ProcessingContext.init).clients.map Prod.fst ↔
      cid ∈ l.map Transaction.client_id) ∧
    ((export_client_states (processList l ProcessingContext.init)).map
        ClientState.client_id =
      (processList l ProcessingContext.init).clients.map Prod.fst) ∧
    ((∀ p ∈ processResults l ProcessingContext.init,
        (p.1 : Transaction).client_id = cid → ∃ e, p.2 = .error e) →
      cid ∈ l.map Transaction.client_id →
      mapLookup (processList l ProcessingContext.init).clients cid =
        some (ClientInfo.new (ClientState.new cid))) := by
  refine ⟨?_, ?_, ?_, ?_, ?_, ?_, ?_⟩
  · intro h
    unfold process_transactions
    rw [import_has_error h]
  · unfold process_transactions
    rw [import_map_ok]
  · rw [processList_append]
    simp only [processList]
    exact stepTransaction_errors _ _
  · exact processList_keys_nodup l ProcessingContext.init (by simp [ProcessingContext.init])
  · rw [processList_mem_keys]
    simp [ProcessingContext.init]
  · unfold export_client_states
    rw [List.map_map]
    refine List.map_congr_left ?_
    intro p hp
    exact processList_ids l ProcessingContext.init
      (by intro p2 hp2; simp [ProcessingContext.init] at hp2) p hp
  · intro hres hmem
    exact processList_failed_client cid l ProcessingContext.init hres
      (Or.inl rfl) (Or.inl hmem)

/-- C6 witness: a lone import failure is fatal, and a client whose only
record lacks its amount is still exported with the fresh zero state. -/
theorem c6_fatal_import_nonfatal_records_witness :
    (process_transactions [Except.error ()] = .error .ImportError) ∧
    mapLookup (processList [missingAmountDeposit] ProcessingContext.init).clients 1 =
      some (ClientInfo.new (ClientState.new 1)) :=
  ⟨(c6_fatal_import_nonfatal_records [Except.error ()] [] missingAmountDeposit
      ProcessingContext.init 1).1 (List.mem_singleton.mpr rfl),
   (c6_fatal_import_nonfatal_records [Except.error ()] [missingAmountDeposit]
      missingAmountDeposit ProcessingContext.init 1).2.2.2.2.2.2
     (by
       intro p hp hc
       simp only [processResults, List.mem_singleton] at hp
       rw [hp]
       exact ⟨.MissingAmount 9, rfl⟩)
     (by simp [missingAmountDeposit])⟩

/-- C9: in every processor state reachable from the empty ledger, every
stored record amount is non-negative and every account has non-negative
held funds (hence available is at most total); consequently a
dispute-family record driven by the processor can never produce the
InvalidAmount error. -/
theorem c9_processor_invariants (l : List Transaction) (t : Transaction)
    (tid : Nat) (q : ℚ) :
    (∀ p ∈ (processList l ProcessingContext.init).clients,
      0 ≤ (p.2 : ClientInfo).state.held ∧
      (p.2 : ClientInfo).state.available ≤ (p.2 : ClientInfo).state.total ∧
      ∀ r ∈ (p.2 : ClientInfo).transactions, 0 ≤ (r.2 : TransactionInfo).amount) ∧
    (isDisputeFamily t.type = true →
      stepResult (processList l ProcessingContext.init) t ≠
        .error (.TransactionError tid (.InvalidAmount q))) := by
  have hinv : LedgerInv (processList l ProcessingContext.init) :=
    processList_inv LedgerInv_init
  constructor
  · intro p hp
    obtain ⟨hbal, hheld, hrec⟩ := hinv p hp
    exact ⟨hheld, by linarith, hrec⟩
  · intro hf hcontra
    have hcinv : ClientInfoInv
        (getOrNewClient (processList l ProcessingContext.init) t.client_id) :=
      getOrNewClient_inv _ hinv
    have hstep : stepResult (processList l ProcessingContext.init) t =
        process_transaction
          (getOrNewClient (processList l ProcessingContext.init) t.client_id) t := rfl
    rw [hstep] at hcontra
    rcases process_family_outcomes hf hcinv.2.2 with ⟨c2, hc⟩ | hc | hc | hc
    · rw [hc] at hcontra
      exact absurd hcontra (by simp)
    · rw [hc] at hcontra
      exact absurd hcontra (by simp)
    · rw [hc] at hcontra
      exact absurd hcontra (by simp)
    · rw [hc] at hcontra
      exact absurd hcontra (by simp)

/-- C9 witness: after Scenario A, a further dispute driven by the processor
cannot produce an InvalidAmount error. -/
theorem c9_processor_invariants_witness :
    (isDisputeFamily TransactionType.Dispute = true) ∧
    stepResult (processList scenarioA ProcessingContext.init)
        { type := .Dispute, client_id := 1, transaction_id := 1, amount := none } ≠
      .error (.TransactionError 1 (.InvalidAmount 5)) :=
  ⟨rfl,
   (c9_processor_invariants scenarioA
      { type := .Dispute, client_id := 1, transaction_id := 1, amount := none } 1 5).2 rfl⟩

/-- C10: processing never reads the amount field of dispute-family records:
two inputs that agree except on those amount fields (altered or removed)
produce identical final ledgers — same balances, lock flags, record
lifecycles — and identical error lists. -/
theorem c10_dispute_amount_ignored (l1 l2 : List Transaction)
    (h : List.Forall₂ sameUpToDisputeAmounts l1 l2) :
    processList l1 ProcessingContext.init = processList l2 ProcessingContext.init :=
  processList_amount_blind h ProcessingContext.init

/-- C10 witness: Scenario A with every dispute-family amount altered runs to
the identical final context. -/
theorem c10_dispute_amount_ignored_witness :
    processList scenarioA ProcessingContext.init =
      processList scenarioAAltered ProcessingContext.init :=
  c10_dispute_amount_ignored scenarioA scenarioAAltered
    (by simp [scenarioA, scenarioAAltered, List.forall₂_cons, sameUpToDisputeAmounts,
      isDisputeFamily])

end TxEngine
